import Mathlib

/-!
Verification model of the gosocket hub/session engine.

The definitions below are a shallow embedding of the Go sources
(client.go, server.go and the variant client.go shipped under test/):
Go maps become association lists, buffered channels become bounded
lists with a closed flag, and the hub's and the read pump's sequential
processing of one request/frame become pure state-transition functions.
A result of none models a Go runtime panic (send on a closed channel,
close of a closed channel, nil dereference).
-/

/-- A Go value of static type interface, restricted to the shapes this
program ever stores in a message payload: the JSON tree produced by
decoding a frame, plus a raw byte slice (the hub passes an empty byte
slice to the connect/disconnect handlers). Numbers are modelled by Int;
the Go float64 round-trips exactly through JSON, which the model
reflects by keeping the number abstract. -/
inductive GoVal where
  | null : GoVal
  | bool (b : Bool) : GoVal
  | num (n : Int) : GoVal
  | str (s : String) : GoVal
  | arr (xs : List GoVal) : GoVal
  | obj (fields : List (String × GoVal)) : GoVal
  | bytes (bs : List Nat) : GoVal

/-- The standard base64 alphabet used by encoding/base64 StdEncoding,
which encoding/json applies to byte slices. -/
def base64Alphabet : List Char :=
  "ABCDEFGHIJKLMNOPQRSTUVWXYZabcdefghijklmnopqrstuvwxyz0123456789+/".toList

/-- One base64 digit. -/
def b64digit (n : Nat) : Char := base64Alphabet.getD n 'A'

/-- Base64 encoding of a byte sequence with padding, as performed by
encoding/json when marshalling a Go byte slice. -/
def base64Encode : List Nat → List Char
  | [] => []
  | [a] => [b64digit (a / 4), b64digit (a % 4 * 16), '=', '=']
  | [a, b] => [b64digit (a / 4), b64digit (a % 4 * 16 + b / 16), b64digit (b % 16 * 4), '=']
  | a :: b :: c :: rest =>
      b64digit (a / 4) :: b64digit (a % 4 * 16 + b / 16) ::
        b64digit (b % 16 * 4 + c / 64) :: b64digit (c % 64) :: base64Encode rest

mutual
/-- The composite of json.Marshal and json.Unmarshal into a fresh
interface value, as executed by TypedHandler.Handle: a JSON tree maps
to itself and a byte slice marshals to its base64 string. -/
def jsonRoundTrip : GoVal → GoVal
  | .null => .null
  | .bool b => .bool b
  | .num n => .num n
  | .str s => .str s
  | .arr xs => .arr (jsonRoundTripList xs)
  | .obj fs => .obj (jsonRoundTripObj fs)
  | .bytes bs => .str (String.mk (base64Encode bs))

/-- jsonRoundTrip mapped over an array payload. -/
def jsonRoundTripList : List GoVal → List GoVal
  | [] => []
  | x :: t => jsonRoundTrip x :: jsonRoundTripList t

/-- jsonRoundTrip mapped over the fields of an object payload. -/
def jsonRoundTripObj : List (String × GoVal) → List (String × GoVal)
  | [] => []
  | (k, v) :: t => (k, jsonRoundTrip v) :: jsonRoundTripObj t
end

mutual
/-- True exactly for the values that conn.ReadJSON can produce for the
Data field of an inbound frame: a pure JSON tree, never a byte slice. -/
def isWireJson : GoVal → Bool
  | .null => true
  | .bool _ => true
  | .num _ => true
  | .str _ => true
  | .arr xs => isWireJsonList xs
  | .obj fs => isWireJsonObj fs
  | .bytes _ => false

/-- isWireJson over an array payload. -/
def isWireJsonList : List GoVal → Bool
  | [] => true
  | x :: t => isWireJson x && isWireJsonList t

/-- isWireJson over the fields of an object payload. -/
def isWireJsonObj : List (String × GoVal) → Bool
  | [] => true
  | (_, v) :: t => isWireJson v && isWireJsonObj t
end

mutual
/-- On a wire-decoded payload the marshal/unmarshal round trip performed
by TypedHandler.Handle is the identity. -/
theorem jsonRoundTrip_wire : ∀ v : GoVal, isWireJson v = true → jsonRoundTrip v = v
  | .null, _ => rfl
  | .bool _, _ => rfl
  | .num _, _ => rfl
  | .str _, _ => rfl
  | .arr xs, h => by
      simp only [jsonRoundTrip]
      simp only [isWireJson] at h
      rw [jsonRoundTripList_wire xs h]
  | .obj fs, h => by
      simp only [jsonRoundTrip]
      simp only [isWireJson] at h
      rw [jsonRoundTripObj_wire fs h]

/-- List version of jsonRoundTrip_wire. -/
theorem jsonRoundTripList_wire : ∀ xs : List GoVal,
    isWireJsonList xs = true → jsonRoundTripList xs = xs
  | [], _ => rfl
  | x :: t, h => by
      simp only [isWireJsonList, Bool.and_eq_true] at h
      simp only [jsonRoundTripList]
      rw [jsonRoundTrip_wire x h.1, jsonRoundTripList_wire t h.2]

/-- Object-fields version of jsonRoundTrip_wire. -/
theorem jsonRoundTripObj_wire : ∀ fs : List (String × GoVal),
    isWireJsonObj fs = true → jsonRoundTripObj fs = fs
  | [], _ => rfl
  | (k, v) :: t, h => by
      simp only [isWireJsonObj, Bool.and_eq_true] at h
      simp only [jsonRoundTripObj]
      rw [jsonRoundTrip_wire v h.1, jsonRoundTripObj_wire t h.2]
end

/-- A socket message: a flat record with an event name and a payload. -/
structure Message where
  event : String
  data : GoVal

/-- The observable outcome of one EventHandler.Handle call: either the
application handler was invoked, with the (decoded) payload it was
given, or decoding failed and the error was returned to the caller
without the handler ever running. -/
inductive HandleOutcome where
  | invoked (payload : GoVal) : HandleOutcome
  | decodeError (e : String) : HandleOutcome

/-- An entry of the handlers table, summarised by its observable
behaviour on one payload. -/
def EventHandler := GoVal → HandleOutcome

/-- TypedHandler.Handle: marshal the raw payload and unmarshal it into
the declared shape T, then call the application handler with the result;
a marshal or unmarshal error is returned and the handler is not called.
The composite marshal/unmarshal step for the shape T is abstracted as
the decode argument. -/
def TypedHandler.Handle (decode : GoVal → Except String GoVal) : EventHandler :=
  fun data =>
    match decode data with
    | .ok p => .invoked p
    | .error e => .decodeError e

/-- Marshal then unmarshal into a fresh interface value: never fails,
and yields the JSON round trip of the input. This is the decode step of
the TypedHandler over interface that Server.On registers. -/
def interfaceUnmarshal : GoVal → Except String GoVal :=
  fun d => .ok (jsonRoundTrip d)

/-- The table entry stored by Server.On: a TypedHandler over interface
whose inner function forwards to the application handler. -/
def Server.onEntry : EventHandler := TypedHandler.Handle interfaceUnmarshal

/-- The state of one Client object: its buffered send channel (contents
plus closed flag) and its local set of joined room names. -/
structure ClientState where
  sendQueue : List Message
  sendClosed : Bool
  rooms : List String

/-- A Client as freshly constructed by handleWebSocket: empty buffered
send channel, no rooms. -/
def newClient : ClientState :=
  { sendQueue := [], sendClosed := false, rooms := [] }

/-- Capacity of the buffered send channel (make chan Message 256). -/
def sendCap : Nat := 256

/-- The shared state of the server: every live Client object keyed by
ID, the registry (the key set of the clients map), the room index, the
handlers table and the middleware list. -/
structure ServerState where
  objs : List (String × ClientState)
  registry : List String
  rooms : List (String × List String)
  handlers : List (String × EventHandler)
  middleware : List (String → Message → Bool)

/-- Go map read: the value at a key, if present. -/
def lookupStr {α : Type} : List (String × α) → String → Option α
  | [], _ => none
  | (k, v) :: t, key => if k = key then some v else lookupStr t key

/-- Go map write: replace the binding of a key, or add it. -/
def insertStr {α : Type} : List (String × α) → String → α → List (String × α)
  | [], key, v => [(key, v)]
  | (k, v') :: t, key, v => if k = key then (key, v) :: t else (k, v') :: insertStr t key v

/-- Go map delete of a key (delete of an absent key is a no-op). -/
def eraseKey {α : Type} (l : List (String × α)) (key : String) : List (String × α) :=
  l.filter (fun p => p.1 ≠ key)

/-- The send-channel contents of one client object, if the object exists. -/
def queueOf (s : ServerState) (cid : String) : Option (List Message) :=
  (lookupStr s.objs cid).map ClientState.sendQueue

/-- The select statement shared by Client.Emit and the hub's broadcast
case: try a non-blocking send of one message on a client's buffered
channel; if the buffer has room the message is appended, otherwise the
default branch closes the channel and deletes the client from the
registry. A send on a closed channel panics (none); a missing client
object models a nil dereference (none). -/
def trySend (s : ServerState) (cid : String) (msg : Message) : Option ServerState :=
  match lookupStr s.objs cid with
  | none => none
  | some cs =>
    if cs.sendClosed then none
    else if cs.sendQueue.length < sendCap then
      some { s with objs := insertStr s.objs cid { cs with sendQueue := cs.sendQueue ++ [msg] } }
    else
      some { s with
        objs := insertStr s.objs cid { cs with sendClosed := true },
        registry := s.registry.filter (fun x => x ≠ cid) }

/-- Client.Emit: build the event/data message and attempt the
non-blocking send on this client's own channel. -/
def Client.Emit (s : ServerState) (cid : String) (event : String) (data : GoVal) :
    Option ServerState :=
  trySend s cid { event := event, data := data }

/-- The loop body of the hub's broadcast case, iterating a list of
client IDs and attempting the non-blocking send to each. -/
def sendAll (msg : Message) : List String → ServerState → Option ServerState
  | [], s => some s
  | i :: t, s => (trySend s i msg).bind (sendAll msg t)

/-- The broadcast case of Server.run: iterate the registry and enqueue
the message to every registered client with the non-blocking send. -/
def Server.processBroadcast (s : ServerState) (msg : Message) : Option ServerState :=
  sendAll msg s.registry s

/-- Client.Broadcast: the request this call submits to the hub's
broadcast channel, namely the event/data message; the hub later
processes it with Server.processBroadcast. -/
def Client.Broadcast (event : String) (data : GoVal) : Message :=
  { event := event, data := data }

/-- The loop body of Client.BroadcastToRoom: Emit to every listed
member whose ID differs from the caller's. -/
def sendAllExcept (msg : Message) (cid : String) : List String → ServerState → Option ServerState
  | [], s => some s
  | i :: t, s =>
      if i = cid then sendAllExcept msg cid t s
      else (trySend s i msg).bind (sendAllExcept msg cid t)

/-- Client.BroadcastToRoom: look the room up in the room index and Emit
the message to every member other than the caller; an unknown room does
nothing. -/
def Client.BroadcastToRoom (s : ServerState) (cid : String) (room event : String)
    (data : GoVal) : Option ServerState :=
  match lookupStr s.rooms room with
  | none => some s
  | some ms => sendAllExcept { event := event, data := data } cid ms s

/-- Client.Join: record the room in the client's local room set, create
the room index entry lazily, and add the client to it. A map assignment
with an already-present key leaves the set unchanged. -/
def Client.Join (s : ServerState) (cid room : String) : ServerState :=
  match lookupStr s.objs cid with
  | none => s
  | some cs =>
    let cs' := { cs with rooms := if room ∈ cs.rooms then cs.rooms else room :: cs.rooms }
    let s1 := { s with objs := insertStr s.objs cid cs' }
    let ms := (lookupStr s1.rooms room).getD []
    { s1 with rooms := insertStr s1.rooms room (if cid ∈ ms then ms else cid :: ms) }

/-- First half of Server.leaveRoom: delete the client from the room's
member set in the room index, deleting the whole room entry if the
member set became empty. -/
def leaveRoomIndex (s : ServerState) (cid room : String) : ServerState :=
  match lookupStr s.rooms room with
  | none => s
  | some ms =>
    let ms' := ms.filter (fun x => x ≠ cid)
    if ms'.isEmpty then { s with rooms := eraseKey s.rooms room }
    else { s with rooms := insertStr s.rooms room ms' }

/-- Second half of Server.leaveRoom: delete the room from the client's
local room set. -/
def leaveLocal (s : ServerState) (cid room : String) : ServerState :=
  match lookupStr s.objs cid with
  | none => s
  | some cs =>
      { s with objs := insertStr s.objs cid { cs with rooms := cs.rooms.filter (fun r => r ≠ room) } }

/-- Server.leaveRoom: update the room index, then the client's local
room set, in the order of the Go function's statements. -/
def Server.leaveRoom (s : ServerState) (cid room : String) : ServerState :=
  leaveLocal (leaveRoomIndex s cid room) cid room

/-- Client.Leave simply delegates to Server.leaveRoom. -/
def Client.Leave (s : ServerState) (cid room : String) : ServerState :=
  Server.leaveRoom s cid room

/-- The unregister case of Server.run. If the client is still in the
registry: delete it, close its send channel (a double close panics:
none), and cascade Server.leaveRoom over every room in its local set;
otherwise leave the state untouched. In either case the disconnect
handler, when registered, is then invoked with the client and an empty
byte slice; the second component reports that invocation's outcome. -/
def Server.processUnregister (s : ServerState) (cid : String) :
    Option ServerState × Option HandleOutcome :=
  let s? : Option ServerState :=
    if s.registry.contains cid then
      match lookupStr s.objs cid with
      | none => none
      | some cs =>
        if cs.sendClosed then none
        else
          let s1 := { s with
            registry := s.registry.filter (fun x => x ≠ cid),
            objs := insertStr s.objs cid { cs with sendClosed := true } }
          some (cs.rooms.foldl (fun t r => Server.leaveRoom t cid r) s1)
    else some s
  (s?, (lookupStr s.handlers "disconnect").map (fun h => h (GoVal.bytes [])))

/-- Server.On: store a TypedHandler over interface for the event
(re-registration overwrites). The application function itself is kept
abstract; only the entry's decode behaviour is recorded. -/
def Server.On (s : ServerState) (event : String) : ServerState :=
  { s with handlers := insertStr s.handlers event Server.onEntry }

/-- Server.OnTyped: store a TypedHandler for the event whose decode
step unmarshals into the declared shape T. -/
def Server.OnTyped (s : ServerState) (event : String)
    (decode : GoVal → Except String GoVal) : ServerState :=
  { s with handlers := insertStr s.handlers event (TypedHandler.Handle decode) }

/-- Server.Use: append one middleware predicate to the list. -/
def Server.Use (s : ServerState) (mw : String → Message → Bool) : ServerState :=
  { s with middleware := s.middleware ++ [mw] }

/-- The middleware loop of readPump. It evaluates the predicates in
list order and stops at the first one returning false. The first
component counts how many predicates were actually evaluated; the
second is the resulting shouldContinue flag. -/
def runMiddleware (mws : List (String → Message → Bool)) (cid : String) (m : Message) :
    Nat × Bool :=
  match mws with
  | [] => (0, true)
  | mw :: rest =>
    if mw cid m then
      let r := runMiddleware rest cid m
      (r.1 + 1, r.2)
    else (1, false)

/-- What one successfully decoded inbound frame leads to in readPump. -/
inductive InboundOutcome where
  /-- A middleware predicate returned false after the given number of
  evaluations: the message is dropped and the loop continues. -/
  | blocked (evaluated : Nat) : InboundOutcome
  /-- All middleware passed but no handler is registered for the event:
  nothing happens and the loop continues. -/
  | noHandler : InboundOutcome
  /-- The handler entry's decode step failed: the error is logged, the
  message is skipped and the loop continues. -/
  | handlerDecodeError (e : String) : InboundOutcome
  /-- The application handler ran with the given payload; the loop
  continues. -/
  | handled (payload : GoVal) : InboundOutcome

/-- The body of readPump after a successful ReadJSON: middleware chain,
then dispatch table lookup, then Handle. -/
def processInbound (s : ServerState) (cid : String) (m : Message) : InboundOutcome :=
  match runMiddleware s.middleware cid m with
  | (n, false) => .blocked n
  | (_, true) =>
    match lookupStr s.handlers m.event with
    | none => .noHandler
    | some h =>
      match h m.data with
      | .invoked p => .handled p
      | .decodeError e => .handlerDecodeError e

/-- A failure of conn.ReadJSON: either a websocket close error carrying
a close code, or a decode error (malformed frame) carrying its text. -/
inductive ReadErr where
  | closeErr (code : Nat) : ReadErr
  | decodeErr (msg : String) : ReadErr

/-- What one call of conn.ReadJSON produced. -/
inductive ReadResult where
  | frame (m : Message) : ReadResult
  | failure (e : ReadErr) : ReadResult

/-- websocket.IsUnexpectedCloseError: true when the error is a close
error whose code is not in the expected list; false for any other kind
of error. -/
def isUnexpectedCloseError (e : ReadErr) (expected : List Nat) : Bool :=
  match e with
  | .closeErr code => !(expected.contains code)
  | .decodeErr _ => false

/-- How one readPump iteration ended. -/
inductive IterOutcome where
  /-- The iteration finished and the loop goes on to the next ReadJSON;
  the payload carries what happened to the frame. -/
  | continued (o : InboundOutcome) : IterOutcome
  /-- The loop broke: the deferred function then submits the client to
  the unregister channel and closes the connection. The flag records
  whether the read error was logged first. -/
  | terminated (logged : Bool) : IterOutcome

/-- One iteration of the readPump loop of client.go. On a read failure
the error is logged only when IsUnexpectedCloseError holds (close codes
1001 and 1006 are the expected ones) and the loop breaks. On a decoded
frame the middleware/dispatch pipeline runs; the state can change only
when the application handler runs, which is abstracted by happ. -/
def readPumpIter (happ : String → GoVal → ServerState → Option ServerState)
    (s : ServerState) (cid : String) (r : ReadResult) :
    Option ServerState × IterOutcome :=
  match r with
  | .failure e => (some s, .terminated (isUnexpectedCloseError e [1001, 1006]))
  | .frame m =>
    match processInbound s cid m with
    | .handled p => (happ m.event p s, .continued (.handled p))
    | o => (some s, .continued o)

/-- How one iteration of the variant readPump (the client.go variant
shipped under test/) ended when ReadJSON failed. -/
inductive VariantErrOutcome where
  /-- Close code 1001 or 1006 with at most 15 prior attempts: sleep and
  retry with the incremented attempt counter. -/
  | retried (attempt : Nat) : VariantErrOutcome
  /-- Close code 1001 or 1006 with more than 15 prior attempts: the
  client is submitted to the unregister channel and the loop breaks. -/
  | gaveUp : VariantErrOutcome
  /-- Any other read error, a malformed frame included: the error is
  logged and the loop continues with the next frame. -/
  | loggedContinue : VariantErrOutcome

/-- The error handling of the variant readPump under test/: reconnect
bookkeeping for close codes 1001/1006, log-and-continue for every other
read error. -/
def readPumpVariantOnError (attempt : Nat) (e : ReadErr) : VariantErrOutcome :=
  match e with
  | .closeErr code =>
    if code = 1001 ∨ code = 1006 then
      if attempt > 15 then .gaveUp else .retried (attempt + 1)
    else .loggedContinue
  | .decodeErr _ => .loggedContinue

/-- A Join or Leave performed by a session on a room. -/
inductive RoomOp where
  | join (cid room : String) : RoomOp
  | leave (cid room : String) : RoomOp

/-- Execute one room operation. -/
def applyRoomOp (s : ServerState) : RoomOp → ServerState
  | .join cid room => Client.Join s cid room
  | .leave cid room => Client.Leave s cid room

/-- Execute a sequence of room operations in order. -/
def applyRoomOps (s : ServerState) (ops : List RoomOp) : ServerState :=
  ops.foldl applyRoomOp s

/-- A server state whose sessions are the given IDs, all freshly
connected: no rooms joined, empty room index. -/
def initState (ids : List String) : ServerState :=
  { objs := ids.map (fun i => (i, newClient)),
    registry := ids,
    rooms := [],
    handlers := [],
    middleware := [] }

/-- The member list of a room in the room index (empty if absent). -/
def roomMembers (s : ServerState) (room : String) : List String :=
  (lookupStr s.rooms room).getD []

/-- Agreement between the sessions' local room sets and the room index:
a room is in a session's local set exactly when the session's ID is in
that room's member set, and no room entry has an empty member set. -/
def RoomsAgree (s : ServerState) : Prop :=
  (∀ cid cs, lookupStr s.objs cid = some cs →
    ∀ room, room ∈ cs.rooms ↔ cid ∈ roomMembers s room) ∧
  (∀ room ms, lookupStr s.rooms room = some ms → ms ≠ [])


/-- An application-handler effect model that changes nothing; used for
concrete evaluations of readPump iterations. -/
def appNoop : String → GoVal → ServerState → Option ServerState :=
  fun _ _ t => some t

/-- A middleware predicate that always allows the message. -/
def mwTrue : String → Message → Bool := fun _ _ => true

/-- A middleware predicate that always blocks the message. -/
def mwFalse : String → Message → Bool := fun _ _ => false

/-- A server with no clients and nothing registered. -/
def emptyServer : ServerState :=
  { objs := [], registry := [], rooms := [], handlers := [], middleware := [] }

/-- A server whose middleware chain is allow, block, allow. -/
def mwServer : ServerState :=
  { emptyServer with middleware := [mwTrue, mwFalse, mwTrue] }

/-- A sample inbound message. -/
def wMsg : Message := { event := "e", data := GoVal.null }

/-- A typed-handler decode step that always fails, modelling a payload
that does not unmarshal into the declared shape. -/
def badDecode : GoVal → Except String GoVal := fun _ => Except.error "bad shape"

/-- A server with one typed handler whose decode step always fails. -/
def typedServer : ServerState :=
  { emptyServer with handlers := [("ev", TypedHandler.Handle badDecode)] }

/-- A server with one untyped (Server.On) handler. -/
def onServer : ServerState :=
  { emptyServer with handlers := [("ev", Server.onEntry)] }

/-- A server with one registered client "bob" and a disconnect handler. -/
def disconnectServer : ServerState :=
  { objs := [("bob", newClient)], registry := ["bob"], rooms := [],
    handlers := [("disconnect", Server.onEntry)], middleware := [] }

/-- The spec scenario state: sessions A and B, both having joined the
room lobby. -/
def lobbyState : ServerState :=
  applyRoomOps (initState ["A", "B"]) [RoomOp.join "A" "lobby", RoomOp.join "B" "lobby"]
theorem lookupStr_insertStr_self {α : Type} (l : List (String × α)) (k : String) (v : α) :
    lookupStr (insertStr l k v) k = some v := by
  induction l with
  | nil => simp [insertStr, lookupStr]
  | cons p t ih =>
    obtain ⟨a, b⟩ := p
    by_cases hak : a = k
    · subst hak
      simp [insertStr, lookupStr]
    · simp [insertStr, lookupStr, hak, ih]

theorem lookupStr_insertStr_ne {α : Type} (l : List (String × α)) (k k' : String) (v : α)
    (h : k ≠ k') : lookupStr (insertStr l k v) k' = lookupStr l k' := by
  induction l with
  | nil => simp [insertStr, lookupStr, h]
  | cons p t ih =>
    obtain ⟨a, b⟩ := p
    by_cases hak : a = k
    · subst hak
      simp [insertStr, lookupStr, h]
    · by_cases hak' : a = k'
      · subst hak'
        simp [insertStr, lookupStr, hak]
      · simp [insertStr, lookupStr, hak, hak', ih]

theorem lookupStr_eraseKey_self {α : Type} (l : List (String × α)) (k : String) :
    lookupStr (eraseKey l k) k = none := by
  induction l with
  | nil => rfl
  | cons p t ih =>
    obtain ⟨a, b⟩ := p
    by_cases hak : a = k
    · subst hak
      simpa [eraseKey, List.filter_cons, ne_eq, decide_not] using ih
    · simp only [eraseKey, List.filter_cons, ne_eq, decide_not] at ih ⊢
      simp [hak, lookupStr, ih]

theorem lookupStr_eraseKey_ne {α : Type} (l : List (String × α)) (k k' : String)
    (h : k ≠ k') : lookupStr (eraseKey l k) k' = lookupStr l k' := by
  induction l with
  | nil => rfl
  | cons p t ih =>
    obtain ⟨a, b⟩ := p
    by_cases hak : a = k
    · subst hak
      simp only [eraseKey, List.filter_cons, ne_eq, decide_not] at ih ⊢
      simp [lookupStr, h, ih]
    · simp only [eraseKey, List.filter_cons, ne_eq, decide_not] at ih ⊢
      by_cases hak' : a = k'
      · subst hak'
        simp [hak, lookupStr]
      · simp [hak, hak', lookupStr, ih]

theorem trySend_enqueue (s : ServerState) (cid : String) (msg : Message) (cs : ClientState)
    (h : lookupStr s.objs cid = some cs) (hopen : cs.sendClosed = false)
    (hspace : cs.sendQueue.length < sendCap) :
    trySend s cid msg =
      some { s with objs := insertStr s.objs cid { cs with sendQueue := cs.sendQueue ++ [msg] } } := by
  simp [trySend, h, hopen, hspace]

theorem trySend_shed (s : ServerState) (cid : String) (msg : Message) (cs : ClientState)
    (h : lookupStr s.objs cid = some cs) (hopen : cs.sendClosed = false)
    (hfull : ¬ cs.sendQueue.length < sendCap) :
    trySend s cid msg =
      some { s with
        objs := insertStr s.objs cid { cs with sendClosed := true },
        registry := s.registry.filter (fun x => x ≠ cid) } := by
  simp [trySend, h, hopen, hfull]

theorem sendAll_spec (msg : Message) :
    ∀ (ids : List String) (s : ServerState), ids.Nodup →
    (∀ i ∈ ids, ∃ cs, lookupStr s.objs i = some cs ∧ cs.sendClosed = false ∧
      cs.sendQueue.length < sendCap) →
    ∃ s', sendAll msg ids s = some s' ∧
      (∀ i ∈ ids, ∃ cs, lookupStr s.objs i = some cs ∧
        lookupStr s'.objs i = some { cs with sendQueue := cs.sendQueue ++ [msg] }) ∧
      (∀ j, j ∉ ids → lookupStr s'.objs j = lookupStr s.objs j) ∧
      s'.registry = s.registry ∧ s'.rooms = s.rooms ∧
      s'.handlers = s.handlers ∧ s'.middleware = s.middleware := by
  intro ids
  induction ids with
  | nil =>
    intro s _ _
    exact ⟨s, rfl, by simp, fun j _ => rfl, rfl, rfl, rfl, rfl⟩
  | cons i t ih =>
    intro s hnd hcond
    obtain ⟨cs, hl, hopen, hspace⟩ := hcond i (by simp)
    have hstep := trySend_enqueue s i msg cs hl hopen hspace
    set s1 : ServerState :=
      { s with objs := insertStr s.objs i { cs with sendQueue := cs.sendQueue ++ [msg] } } with hs1
    have hinotint : i ∉ t := (List.nodup_cons.mp hnd).1
    have hndt : t.Nodup := (List.nodup_cons.mp hnd).2
    have hobjs1 : ∀ j, j ≠ i → lookupStr s1.objs j = lookupStr s.objs j := by
      intro j hji
      simpa [hs1] using lookupStr_insertStr_ne s.objs i j _ (fun he => hji he.symm)
    obtain ⟨s', hrun, hin, hout, hreg, hrm, hh, hmw⟩ := ih s1 hndt (by
      intro j hjt
      obtain ⟨csj, hlj, hoj, hsj⟩ := hcond j (by simp [hjt])
      have hji : j ≠ i := fun he => hinotint (he ▸ hjt)
      exact ⟨csj, (hobjs1 j hji).trans hlj, hoj, hsj⟩)
    refine ⟨s', ?_, ?_, ?_, ?_, ?_, ?_, ?_⟩
    · simp [sendAll, hstep, hrun]
    · intro j hj
      rcases List.mem_cons.mp hj with hji | hjt
      · subst hji
        refine ⟨cs, hl, ?_⟩
        have : lookupStr s'.objs j = lookupStr s1.objs j := hout j hinotint
        rw [this, hs1]
        exact lookupStr_insertStr_self s.objs j _
      · obtain ⟨csj, hlj, hlj'⟩ := hin j hjt
        have hji : j ≠ i := fun he => hinotint (he ▸ hjt)
        exact ⟨csj, ((hobjs1 j hji).symm.trans hlj), hlj'⟩
    · intro j hj
      have hji : j ≠ i := fun he => hj (by simp [he])
      have hjt : j ∉ t := fun hc => hj (by simp [hc])
      exact (hout j hjt).trans (hobjs1 j hji)
    · rw [hreg, hs1]
    · rw [hrm, hs1]
    · rw [hh, hs1]
    · rw [hmw, hs1]

theorem sendAllExcept_eq (msg : Message) (cid : String) :
    ∀ (ids : List String) (s : ServerState),
      sendAllExcept msg cid ids s = sendAll msg (ids.filter (fun i => i ≠ cid)) s := by
  intro ids
  induction ids with
  | nil => intro s; rfl
  | cons i t ih =>
    intro s
    by_cases hic : i = cid
    · simp [sendAllExcept, hic, List.filter_cons, ih]
    · simp only [sendAllExcept, hic, List.filter_cons, if_neg hic]
      cases htr : trySend s i msg with
      | none => simp [sendAll, htr, hic]
      | some s1 => simp [sendAll, htr, ih, hic]

theorem runMiddleware_all_true (cid : String) (m : Message) :
    ∀ mws : List (String → Message → Bool), (∀ mw ∈ mws, mw cid m = true) →
      runMiddleware mws cid m = (mws.length, true)
  | [], _ => rfl
  | mw :: t, h => by
      have hmw : mw cid m = true := h mw (by simp)
      have ht := runMiddleware_all_true cid m t (fun x hx => h x (by simp [hx]))
      simp [runMiddleware, hmw, ht]

theorem runMiddleware_first_false (cid : String) (m : Message) :
    ∀ (mws : List (String → Message → Bool)) (i : Nat) (h : i < mws.length),
      (∀ j (hj : j < i), mws.get ⟨j, Nat.lt_trans hj h⟩ cid m = true) →
      mws.get ⟨i, h⟩ cid m = false →
      runMiddleware mws cid m = (i + 1, false) := by
  intro mws
  induction mws with
  | nil =>
    intro i h _ _
    exact absurd h (by simp)
  | cons mw t ih =>
    intro i h hprev hfalse
    cases i with
    | zero =>
      have : mw cid m = false := hfalse
      simp [runMiddleware, this]
    | succ n =>
      have hmw : mw cid m = true := hprev 0 (Nat.succ_pos n)
      have hn : n < t.length := Nat.lt_of_succ_lt_succ (by simpa using h)
      have ht := ih n hn (fun j hj => hprev (j + 1) (Nat.succ_lt_succ hj)) hfalse
      simp [runMiddleware, hmw, ht]

theorem Client.Join_eq (s : ServerState) (cid room : String) (cs : ClientState)
    (hobj : lookupStr s.objs cid = some cs) :
    Client.Join s cid room =
      { s with
        objs := insertStr s.objs cid
          { cs with rooms := if room ∈ cs.rooms then cs.rooms else room :: cs.rooms },
        rooms := insertStr s.rooms room
          (if cid ∈ (lookupStr s.rooms room).getD [] then (lookupStr s.rooms room).getD []
           else cid :: (lookupStr s.rooms room).getD []) } := by
  simp only [Client.Join, hobj]

theorem roomsAgree_join (s : ServerState) (cid room : String) (h : RoomsAgree s) :
    RoomsAgree (Client.Join s cid room) := by
  obtain ⟨hA, hE⟩ := h
  cases hobj : lookupStr s.objs cid with
  | none =>
    simp only [Client.Join, hobj]
    exact ⟨hA, hE⟩
  | some cs =>
    rw [Client.Join_eq s cid room cs hobj]
    set ms0 : List String := (lookupStr s.rooms room).getD [] with hms0
    set msJ : List String := if cid ∈ ms0 then ms0 else cid :: ms0 with hmsJ
    set csJ : ClientState :=
      { cs with rooms := if room ∈ cs.rooms then cs.rooms else room :: cs.rooms } with hcsJ
    have hcidJ : cid ∈ msJ := by
      rw [hmsJ]
      by_cases hc : cid ∈ ms0 <;> simp [hc]
    constructor
    · intro cid' cs' hl room'
      by_cases hc : cid' = cid
      · subst hc
        rw [lookupStr_insertStr_self] at hl
        injection hl with hl
        subst hl
        by_cases hr : room' = room
        · subst hr
          simp only [roomMembers, lookupStr_insertStr_self, Option.getD_some]
          constructor
          · intro _
            exact hcidJ
          · intro _
            by_cases hrm : room' ∈ cs.rooms <;> simp [csJ, hrm]
        · have hlr : lookupStr (insertStr s.rooms room msJ) room' = lookupStr s.rooms room' :=
            lookupStr_insertStr_ne s.rooms room room' msJ (fun he => hr he.symm)
          simp only [roomMembers, hlr]
          have hmem : room' ∈ csJ.rooms ↔ room' ∈ cs.rooms := by
            rw [hcsJ]
            by_cases hrm : room ∈ cs.rooms <;> simp [hrm, hr]
          rw [hmem]
          exact hA cid' cs hobj room'
      · rw [lookupStr_insertStr_ne s.objs cid cid' csJ (fun he => hc he.symm)] at hl
        by_cases hr : room' = room
        · subst hr
          simp only [roomMembers, lookupStr_insertStr_self, Option.getD_some]
          have hmem : cid' ∈ msJ ↔ cid' ∈ ms0 := by
            rw [hmsJ]
            by_cases hcm : cid ∈ ms0 <;> simp [hcm, hc]
          rw [hmem]
          have := hA cid' cs' hl room'
          simpa only [roomMembers, hms0] using this
        · have hlr : lookupStr (insertStr s.rooms room msJ) room' = lookupStr s.rooms room' :=
            lookupStr_insertStr_ne s.rooms room room' msJ (fun he => hr he.symm)
          simp only [roomMembers, hlr]
          exact hA cid' cs' hl room'
    · intro room' ms' hl
      by_cases hr : room' = room
      · subst hr
        rw [lookupStr_insertStr_self] at hl
        injection hl with hl
        subst hl
        intro hnil
        rw [hnil] at hcidJ
        exact absurd hcidJ (List.not_mem_nil cid)
      · rw [lookupStr_insertStr_ne s.rooms room room' msJ (fun he => hr he.symm)] at hl
        exact hE room' ms' hl


theorem leaveRoomIndex_objs (s : ServerState) (cid room : String) :
    (leaveRoomIndex s cid room).objs = s.objs := by
  unfold leaveRoomIndex
  cases lookupStr s.rooms room with
  | none => rfl
  | some ms =>
    dsimp only
    split <;> rfl

theorem leaveRoomIndex_rooms_lookup (s : ServerState) (cid room r : String) :
    lookupStr (leaveRoomIndex s cid room).rooms r =
      if r = room then
        Option.bind (lookupStr s.rooms room) (fun ms =>
          if (ms.filter (fun x => x ≠ cid)).isEmpty then none
          else some (ms.filter (fun x => x ≠ cid)))
      else lookupStr s.rooms r := by
  unfold leaveRoomIndex
  cases hms : lookupStr s.rooms room with
  | none =>
    by_cases hr : r = room
    · rw [if_pos hr, hr, hms]
      rfl
    · rw [if_neg hr]
  | some ms =>
    dsimp only
    simp only [Option.bind]
    cases he : (ms.filter (fun x => x ≠ cid)).isEmpty with
    | true =>
      simp only [eq_self_iff_true, if_true]
      by_cases hr : r = room
      · rw [if_pos hr, hr, lookupStr_eraseKey_self]
      · rw [if_neg hr]
        exact lookupStr_eraseKey_ne s.rooms room r (fun hx => hr hx.symm)
    | false =>
      simp only [Bool.false_eq_true, if_false]
      by_cases hr : r = room
      · rw [if_pos hr, hr, lookupStr_insertStr_self]
      · rw [if_neg hr]
        exact lookupStr_insertStr_ne s.rooms room r _ (fun hx => hr hx.symm)

theorem filter_eq_nil_of_isEmpty {l : List String} {p : String → Bool}
    (h : (l.filter p).isEmpty = true) : l.filter p = [] := by
  cases hfe : l.filter p with
  | nil => rfl
  | cons a t =>
    rw [hfe] at h
    simp [List.isEmpty] at h

theorem leaveRoomIndex_members_self (s : ServerState) (cid room : String) :
    roomMembers (leaveRoomIndex s cid room) room =
      (roomMembers s room).filter (fun x => x ≠ cid) := by
  unfold roomMembers
  rw [leaveRoomIndex_rooms_lookup, if_pos rfl]
  cases hms : lookupStr s.rooms room with
  | none => rfl
  | some ms =>
    simp only [Option.bind]
    cases he : (ms.filter (fun x => x ≠ cid)).isEmpty with
    | true =>
      simp only [eq_self_iff_true, if_true]
      have h2 : ms.filter (fun x => x ≠ cid) = [] := filter_eq_nil_of_isEmpty he
      simp only [Option.getD_none, Option.getD_some]
      exact h2.symm
    | false =>
      simp only [Bool.false_eq_true, if_false]
      rfl

theorem leaveRoomIndex_no_empty (s : ServerState) (cid room : String)
    (hE : ∀ r ms, lookupStr s.rooms r = some ms → ms ≠ []) :
    ∀ r ms, lookupStr (leaveRoomIndex s cid room).rooms r = some ms → ms ≠ [] := by
  intro r ms hl
  rw [leaveRoomIndex_rooms_lookup] at hl
  by_cases hr : r = room
  · rw [if_pos hr] at hl
    cases hms : lookupStr s.rooms room with
    | none =>
      rw [hms] at hl
      exact absurd hl (by simp)
    | some ms0 =>
      rw [hms] at hl
      simp only [Option.bind] at hl
      cases he : (ms0.filter (fun x => x ≠ cid)).isEmpty with
      | true =>
        rw [he] at hl
        simp only [eq_self_iff_true, if_true] at hl
        exact absurd hl (by simp)
      | false =>
        rw [he] at hl
        simp only [Bool.false_eq_true, if_false] at hl
        injection hl with hl
        intro hnil
        rw [hl, hnil] at he
        simp [List.isEmpty] at he
  · rw [if_neg hr] at hl
    exact hE r ms hl

theorem leaveLocal_rooms (s : ServerState) (cid room : String) :
    (leaveLocal s cid room).rooms = s.rooms := by
  unfold leaveLocal
  cases lookupStr s.objs cid with
  | none => rfl
  | some cs => rfl

theorem leaveLocal_objs_none (s : ServerState) (cid room : String)
    (h : lookupStr s.objs cid = none) : leaveLocal s cid room = s := by
  unfold leaveLocal
  rw [h]

theorem leaveLocal_objs_other (s : ServerState) (cid room cid' : String) (h : cid' ≠ cid) :
    lookupStr (leaveLocal s cid room).objs cid' = lookupStr s.objs cid' := by
  unfold leaveLocal
  cases lookupStr s.objs cid with
  | none => rfl
  | some cs =>
    exact lookupStr_insertStr_ne s.objs cid cid' _ (fun hx => h hx.symm)

theorem leaveLocal_objs_self (s : ServerState) (cid room : String) (cs : ClientState)
    (h : lookupStr s.objs cid = some cs) :
    lookupStr (leaveLocal s cid room).objs cid =
      some { cs with rooms := cs.rooms.filter (fun r => r ≠ room) } := by
  unfold leaveLocal
  rw [h]
  exact lookupStr_insertStr_self s.objs cid _

theorem leaveRoom_objs_lookup (s : ServerState) (cid room cid' : String) :
    lookupStr (Server.leaveRoom s cid room).objs cid' =
      if cid' = cid then
        (lookupStr s.objs cid).map
          (fun cs => { cs with rooms := cs.rooms.filter (fun r => r ≠ room) })
      else lookupStr s.objs cid' := by
  unfold Server.leaveRoom
  have htobjs : (leaveRoomIndex s cid room).objs = s.objs := leaveRoomIndex_objs s cid room
  by_cases hc : cid' = cid
  · rw [if_pos hc, hc]
    cases hobj : lookupStr s.objs cid with
    | none =>
      rw [leaveLocal_objs_none _ cid room (by rw [htobjs]; exact hobj), htobjs, hobj]
      rfl
    | some cs =>
      rw [leaveLocal_objs_self _ cid room cs (by rw [htobjs]; exact hobj)]
      rfl
  · rw [if_neg hc, leaveLocal_objs_other _ cid room cid' hc, htobjs]

theorem leaveRoom_members (s : ServerState) (cid room room' : String) :
    roomMembers (Server.leaveRoom s cid room) room' =
      if room' = room then (roomMembers s room).filter (fun x => x ≠ cid)
      else roomMembers s room' := by
  unfold Server.leaveRoom
  have h1 : (leaveLocal (leaveRoomIndex s cid room) cid room).rooms =
      (leaveRoomIndex s cid room).rooms := leaveLocal_rooms _ cid room
  by_cases hr : room' = room
  · rw [if_pos hr, hr]
    unfold roomMembers
    rw [h1]
    have := leaveRoomIndex_members_self s cid room
    unfold roomMembers at this
    exact this
  · rw [if_neg hr]
    unfold roomMembers
    rw [h1, leaveRoomIndex_rooms_lookup, if_neg hr]

theorem roomsAgree_leave (s : ServerState) (cid room : String) (h : RoomsAgree s) :
    RoomsAgree (Server.leaveRoom s cid room) := by
  obtain ⟨hA, hE⟩ := h
  constructor
  · intro cid' cs' hl room'
    rw [leaveRoom_objs_lookup] at hl
    rw [leaveRoom_members]
    by_cases hc : cid' = cid
    · rw [if_pos hc] at hl
      cases hobj : lookupStr s.objs cid with
      | none =>
        rw [hobj] at hl
        exact absurd hl (by simp)
      | some cs =>
        rw [hobj] at hl
        have hl2 : { cs with rooms := cs.rooms.filter (fun r => r ≠ room) } = cs' := by
          simpa using hl
        rw [← hl2]
        by_cases hr : room' = room
        · rw [if_pos hr]
          simp [List.mem_filter, hr, hc]
        · rw [if_neg hr]
          have hmem : room' ∈ cs.rooms.filter (fun r => r ≠ room) ↔ room' ∈ cs.rooms := by
            simp [List.mem_filter, hr]
          simp only [hmem]
          rw [hc]
          exact hA cid cs hobj room'
    · rw [if_neg hc] at hl
      by_cases hr : room' = room
      · rw [if_pos hr, hr]
        have hmem : cid' ∈ (roomMembers s room).filter (fun x => x ≠ cid) ↔
            cid' ∈ roomMembers s room := by
          simp [List.mem_filter, hc]
        rw [hmem]
        exact hA cid' cs' hl room
      · rw [if_neg hr]
        exact hA cid' cs' hl room'
  · intro room' ms' hl
    have h1 : (Server.leaveRoom s cid room).rooms = (leaveRoomIndex s cid room).rooms := by
      unfold Server.leaveRoom
      exact leaveLocal_rooms _ cid room
    rw [h1] at hl
    exact leaveRoomIndex_no_empty s cid room hE room' ms' hl

theorem lookup_initState_objs (ids : List String) (cid : String) (cs : ClientState) :
    lookupStr (List.map (fun i => (i, newClient)) ids) cid = some cs → cs = newClient := by
  induction ids with
  | nil =>
    intro h
    exact absurd h (by simp [lookupStr])
  | cons i t ih =>
    intro h
    simp only [List.map_cons, lookupStr] at h
    by_cases hi : i = cid
    · rw [if_pos hi] at h
      injection h with h
      exact h.symm
    · rw [if_neg hi] at h
      exact ih h

theorem initState_roomsAgree (ids : List String) : RoomsAgree (initState ids) := by
  constructor
  · intro cid cs hl room
    have hnc : cs = newClient := lookup_initState_objs ids cid cs hl
    rw [hnc]
    simp [newClient, roomMembers, initState, lookupStr]
  · intro room ms hl
    exact absurd hl (by simp [initState, lookupStr])

theorem roomsAgree_applyRoomOp (s : ServerState) (op : RoomOp) (h : RoomsAgree s) :
    RoomsAgree (applyRoomOp s op) := by
  cases op with
  | join cid room => exact roomsAgree_join s cid room h
  | leave cid room => exact roomsAgree_leave s cid room h

theorem roomsAgree_foldl : ∀ (ops : List RoomOp) (s : ServerState), RoomsAgree s →
    RoomsAgree (List.foldl applyRoomOp s ops)
  | [], _, h => h
  | op :: t, s, h => roomsAgree_foldl t (applyRoomOp s op) (roomsAgree_applyRoomOp s op h)

/-- Claim C4: for all sequences of Join and Leave operations performed
by sessions across rooms, starting from freshly connected sessions,
after every operation each session's local room-name set and the room
index's per-room member set agree, and no room entry with an empty
member set remains in the room index. -/
theorem join_leave_rooms_agree (ids : List String) (ops : List RoomOp) :
    RoomsAgree (applyRoomOps (initState ids) ops) :=
  roomsAgree_foldl ops (initState ids) (initState_roomsAgree ids)

/-- Claim C5: Client.Emit is non-blocking with a shed-on-full policy.
With the send channel open, if the bounded queue has free space the
message is appended and the registry field of the resulting state is
untouched; if the queue is full, the channel is closed and the session
is deleted from the registry by the Emit call itself. -/
theorem emit_nonblocking_shed_policy (s : ServerState) (cid event : String) (data : GoVal)
    (cs : ClientState) (h : lookupStr s.objs cid = some cs) (hopen : cs.sendClosed = false) :
    (cs.sendQueue.length < sendCap →
      Client.Emit s cid event data =
        some { s with objs := insertStr s.objs cid ({ cs with sendQueue := cs.sendQueue ++ [{ event := event, data := data }] }) }) ∧
    (¬ cs.sendQueue.length < sendCap →
      Client.Emit s cid event data =
        some { s with
          objs := insertStr s.objs cid { cs with sendClosed := true },
          registry := s.registry.filter (fun x => x ≠ cid) }) := by
  constructor
  · intro hspace
    exact trySend_enqueue s cid _ cs h hopen hspace
  · intro hfull
    exact trySend_shed s cid _ cs h hopen hfull

/-- Witness for claim C5: a concrete Emit on a fresh client appends the
message to its queue and leaves the registry as it was. -/
theorem emit_nonblocking_shed_policy_witness :
    Client.Emit (initState ["alice"]) "alice" "hi" GoVal.null =
      some { initState ["alice"] with
        objs := insertStr (initState ["alice"]).objs "alice"
          ({ newClient with sendQueue := [{ event := "hi", data := GoVal.null }] }) } :=
  (emit_nonblocking_shed_policy (initState ["alice"]) "alice" "hi" GoVal.null newClient
    rfl rfl).1 (by decide)

/-- Claim C2: evaluation of the primary readPump of client.go at a
malformed inbound frame. The decode error is not an unexpected close
error, so nothing is logged and the loop terminates, after which the
deferred function deregisters the session; the claim instead expects a
logged error and a continued loop. -/
theorem readPump_decode_failure_terminates :
    readPumpIter appNoop (initState ["alice"]) "alice"
        (ReadResult.failure (ReadErr.decodeErr "invalid character i looking for beginning of value")) =
      (some (initState ["alice"]), IterOutcome.terminated false) := rfl

/-- The variant readPump shipped under test/ implements the behaviour
the specification describes: a non-close read error, a malformed frame
included, is logged and the loop continues with the next frame. -/
theorem readPumpVariant_decode_error_continues (attempt : Nat) (e : String) :
    readPumpVariantOnError attempt (ReadErr.decodeErr e) = VariantErrOutcome.loggedContinue := rfl

/-- Counterexample for claim C3: processing a Deregister request for a
session that is not in the registry is observable: the registered
disconnect handler fires again (and receives the empty byte slice
marshalled into the empty string). -/
theorem unregister_second_fires_disconnect_cex :
    Server.processUnregister disconnectServer "alice" =
      (some disconnectServer, some (HandleOutcome.invoked (GoVal.str ""))) := rfl

/-- Claim C3 (amended): a Deregister request for a session that is not
in the registry leaves the whole state unchanged and closes no queue,
but still invokes the disconnect handler (if one is registered) with
the empty byte slice. -/
theorem unregister_absent_noop_but_fires_disconnect (s : ServerState) (cid : String)
    (h : s.registry.contains cid = false) :
    Server.processUnregister s cid =
      (some s, (lookupStr s.handlers "disconnect").map (fun hd => hd (GoVal.bytes []))) := by
  have h2 : cid ∉ s.registry := by simpa using h
  simp [Server.processUnregister, h2]

/-- Witness for the amended claim C3 at a concrete state. -/
theorem unregister_absent_noop_but_fires_disconnect_witness :
    Server.processUnregister emptyServer "alice" = (some emptyServer, none) :=
  unregister_absent_noop_but_fires_disconnect emptyServer "alice" rfl

/-- Claim C10: an inbound event that passes the middleware chain but
has no entry in the dispatch table is silently ignored: no handler
runs, the state is unchanged, and the read loop continues with the
next message. -/
theorem unknown_event_ignored (happ : String → GoVal → ServerState → Option ServerState)
    (s : ServerState) (cid : String) (m : Message)
    (hall : ∀ mw ∈ s.middleware, mw cid m = true)
    (hnone : lookupStr s.handlers m.event = none) :
    readPumpIter happ s cid (ReadResult.frame m) =
      (some s, IterOutcome.continued InboundOutcome.noHandler) := by
  have hmw := runMiddleware_all_true cid m s.middleware hall
  simp [readPumpIter, processInbound, hmw, hnone]

/-- Witness for claim C10 at a concrete state. -/
theorem unknown_event_ignored_witness :
    readPumpIter appNoop emptyServer "w" (ReadResult.frame wMsg) =
      (some emptyServer, IterOutcome.continued InboundOutcome.noHandler) :=
  unknown_event_ignored appNoop emptyServer "w" wMsg
    (fun mw hmw => absurd hmw (List.not_mem_nil mw)) rfl

/-- Claim C6: middleware predicates run in registration order; the
first predicate returning false stops the chain after exactly its own
evaluation, no handler runs, the state is unchanged (so no outbound
message and no error for the sender), and the read loop continues. -/
theorem middleware_first_block_short_circuits
    (happ : String → GoVal → ServerState → Option ServerState)
    (s : ServerState) (cid : String) (m : Message) (i : Nat) (h : i < s.middleware.length)
    (hprev : ∀ j (hj : j < i), s.middleware.get ⟨j, Nat.lt_trans hj h⟩ cid m = true)
    (hblock : s.middleware.get ⟨i, h⟩ cid m = false) :
    readPumpIter happ s cid (ReadResult.frame m) =
      (some s, IterOutcome.continued (InboundOutcome.blocked (i + 1))) := by
  have hmw := runMiddleware_first_false cid m s.middleware i h hprev hblock
  simp [readPumpIter, processInbound, hmw]

/-- Witness for claim C6: with the chain allow, block, allow, exactly
two predicates are evaluated and the message is dropped. -/
theorem middleware_first_block_short_circuits_witness :
    readPumpIter appNoop mwServer "w" (ReadResult.frame wMsg) =
      (some mwServer, IterOutcome.continued (InboundOutcome.blocked 2)) :=
  middleware_first_block_short_circuits appNoop mwServer "w" wMsg 1 (by decide)
    (by
      intro j hj
      cases j with
      | zero => rfl
      | succ n => exact absurd hj (by omega))
    rfl

/-- Claim C7: when the decode step of a typed handler fails on an
inbound payload, the typed handler is never invoked, the failure is the
logged-error outcome, the message is dropped with the state unchanged,
and the read loop continues with the next message. -/
theorem onTyped_decode_failure_skips_handler
    (happ : String → GoVal → ServerState → Option ServerState)
    (s : ServerState) (cid : String) (m : Message)
    (dec : GoVal → Except String GoVal) (err : String)
    (hall : ∀ mw ∈ s.middleware, mw cid m = true)
    (hreg : lookupStr s.handlers m.event = some (TypedHandler.Handle dec))
    (hdec : dec m.data = Except.error err) :
    readPumpIter happ s cid (ReadResult.frame m) =
      (some s, IterOutcome.continued (InboundOutcome.handlerDecodeError err)) := by
  have hmw := runMiddleware_all_true cid m s.middleware hall
  simp [readPumpIter, processInbound, hmw, hreg, TypedHandler.Handle, hdec]

/-- Witness for claim C7 at a concrete state and payload. -/
theorem onTyped_decode_failure_skips_handler_witness :
    readPumpIter appNoop typedServer "w" (ReadResult.frame { event := "ev", data := GoVal.num 7 }) =
      (some typedServer, IterOutcome.continued (InboundOutcome.handlerDecodeError "bad shape")) :=
  onTyped_decode_failure_skips_handler appNoop typedServer "w"
    { event := "ev", data := GoVal.num 7 } badDecode "bad shape"
    (fun mw hmw => absurd hmw (List.not_mem_nil mw)) rfl rfl

/-- Claim C9: an event registered with the untyped Server.On receives,
for every wire-decoded inbound payload, exactly the decoded payload
value: the marshal/unmarshal round trip the entry performs is the
identity on such payloads. -/
theorem on_handler_receives_raw_payload
    (happ : String → GoVal → ServerState → Option ServerState)
    (s : ServerState) (cid : String) (m : Message)
    (hall : ∀ mw ∈ s.middleware, mw cid m = true)
    (hreg : lookupStr s.handlers m.event = some Server.onEntry)
    (hwire : isWireJson m.data = true) :
    readPumpIter happ s cid (ReadResult.frame m) =
      (happ m.event m.data s, IterOutcome.continued (InboundOutcome.handled m.data)) := by
  have hmw := runMiddleware_all_true cid m s.middleware hall
  have hrt : jsonRoundTrip m.data = m.data := jsonRoundTrip_wire m.data hwire
  simp [readPumpIter, processInbound, hmw, hreg, Server.onEntry, TypedHandler.Handle,
    interfaceUnmarshal, hrt]

/-- Witness for claim C9: an object payload reaches the untyped handler
unchanged. -/
theorem on_handler_receives_raw_payload_witness :
    readPumpIter appNoop onServer "w"
        (ReadResult.frame { event := "ev", data := GoVal.obj [("n", GoVal.num 1)] }) =
      (some onServer,
        IterOutcome.continued (InboundOutcome.handled (GoVal.obj [("n", GoVal.num 1)]))) :=
  on_handler_receives_raw_payload appNoop onServer "w"
    { event := "ev", data := GoVal.obj [("n", GoVal.num 1)] }
    (fun mw hmw => absurd hmw (List.not_mem_nil mw)) rfl rfl

/-- Counterexample for claim C1: alice and bob are both connected; the
broadcast request alice submits is processed by the hub and alice's own
queue receives the message too, contradicting that Broadcast enqueues
only to every other session and not to the caller. -/
theorem broadcast_delivers_to_sender_cex :
    (Server.processBroadcast (initState ["alice", "bob"])
        (Client.Broadcast "ping" (GoVal.num 1))).bind (fun t => queueOf t "alice") =
      some [{ event := "ping", data := GoVal.num 1 }] := rfl

/-- Claim C1 (amended): a Broadcast request, when processed by the hub,
enqueues the message to every session in the registry, the caller
included, each via the non-blocking send; everything else is
unchanged. The hypotheses say every registered session has an open,
non-full queue, so no session is shed. -/
theorem broadcast_enqueues_to_all_registered (s : ServerState) (event : String) (data : GoVal)
    (hnd : s.registry.Nodup)
    (hready : ∀ i ∈ s.registry, ∃ cs, lookupStr s.objs i = some cs ∧ cs.sendClosed = false ∧
      cs.sendQueue.length < sendCap) :
    ∃ s', Server.processBroadcast s (Client.Broadcast event data) = some s' ∧
      (∀ i ∈ s.registry, ∃ cs, lookupStr s.objs i = some cs ∧
        lookupStr s'.objs i = some { cs with sendQueue := cs.sendQueue ++ [Client.Broadcast event data] }) ∧
      (∀ j, j ∉ s.registry → lookupStr s'.objs j = lookupStr s.objs j) ∧
      s'.registry = s.registry ∧ s'.rooms = s.rooms := by
  obtain ⟨s', h1, h2, h3, h4, h5, _, _⟩ :=
    sendAll_spec (Client.Broadcast event data) s.registry s hnd hready
  exact ⟨s', h1, h2, h3, h4, h5⟩

/-- Witness for the amended claim C1 at a concrete two-session state. -/
theorem broadcast_enqueues_to_all_registered_witness :
    ∃ s', Server.processBroadcast (initState ["alice", "bob"])
        (Client.Broadcast "ping" (GoVal.num 1)) = some s' ∧
      (∀ i ∈ (initState ["alice", "bob"]).registry, ∃ cs,
        lookupStr (initState ["alice", "bob"]).objs i = some cs ∧
        lookupStr s'.objs i = some { cs with sendQueue := cs.sendQueue ++ [Client.Broadcast "ping" (GoVal.num 1)] }) ∧
      (∀ j, j ∉ (initState ["alice", "bob"]).registry →
        lookupStr s'.objs j = lookupStr (initState ["alice", "bob"]).objs j) ∧
      s'.registry = (initState ["alice", "bob"]).registry ∧
      s'.rooms = (initState ["alice", "bob"]).rooms :=
  broadcast_enqueues_to_all_registered (initState ["alice", "bob"]) "ping" (GoVal.num 1)
    (by decide)
    (by
      intro i hi
      refine ⟨newClient, ?_, rfl, by decide⟩
      have hi2 : i ∈ ["alice", "bob"] := hi
      rcases List.mem_cons.mp hi2 with h1 | h1
      · subst h1
        rfl
      · rcases List.mem_cons.mp h1 with h2 | h2
        · subst h2
          rfl
        · exact absurd h2 (List.not_mem_nil i))

/-- Claim C8: BroadcastToRoom enqueues the message to every current
member of the room other than the caller (here, every such member with
an open non-full queue), never to the caller itself, and to no session
outside the member list, one that left the room before the call
included. -/
theorem broadcastToRoom_delivers_to_other_members (s : ServerState) (cid room event : String)
    (data : GoVal) (ms : List String) (hroom : lookupStr s.rooms room = some ms)
    (hnd : ms.Nodup)
    (hready : ∀ i ∈ ms, i ≠ cid → ∃ cs, lookupStr s.objs i = some cs ∧ cs.sendClosed = false ∧
      cs.sendQueue.length < sendCap) :
    ∃ s', Client.BroadcastToRoom s cid room event data = some s' ∧
      (∀ i ∈ ms, i ≠ cid → ∃ cs, lookupStr s.objs i = some cs ∧
        lookupStr s'.objs i = some { cs with sendQueue := cs.sendQueue ++ [{ event := event, data := data }] }) ∧
      lookupStr s'.objs cid = lookupStr s.objs cid ∧
      (∀ j, j ∉ ms → lookupStr s'.objs j = lookupStr s.objs j) := by
  have hfnd : (ms.filter (fun i => i ≠ cid)).Nodup := hnd.filter _
  have hready2 : ∀ i ∈ ms.filter (fun i => i ≠ cid), ∃ cs, lookupStr s.objs i = some cs ∧
      cs.sendClosed = false ∧ cs.sendQueue.length < sendCap := by
    intro i hi
    have hm := List.mem_filter.mp hi
    exact hready i hm.1 (by simpa using hm.2)
  obtain ⟨s', h1, h2, h3, _, _, _, _⟩ :=
    sendAll_spec { event := event, data := data } (ms.filter (fun i => i ≠ cid)) s hfnd hready2
  refine ⟨s', ?_, ?_, ?_, ?_⟩
  · simp only [Client.BroadcastToRoom, hroom]
    rw [sendAllExcept_eq]
    exact h1
  · intro i hi hine
    exact h2 i (List.mem_filter.mpr ⟨hi, by simpa using hine⟩)
  · apply h3
    intro hc
    have := (List.mem_filter.mp hc).2
    simp at this
  · intro j hj
    exact h3 j (fun hc => hj (List.mem_filter.mp hc).1)

/-- Witness for claim C8: the spec scenario. A and B joined the lobby;
A broadcasts to the room; B receives exactly the message and A does
not. -/
theorem broadcastToRoom_delivers_to_other_members_witness :
    ∃ s', Client.BroadcastToRoom lobbyState "A" "lobby" "ping" (GoVal.num 1) = some s' ∧
      (∀ i ∈ ["B", "A"], i ≠ "A" → ∃ cs, lookupStr lobbyState.objs i = some cs ∧
        lookupStr s'.objs i = some { cs with sendQueue := cs.sendQueue ++ [{ event := "ping", data := GoVal.num 1 }] }) ∧
      lookupStr s'.objs "A" = lookupStr lobbyState.objs "A" ∧
      (∀ j, j ∉ ["B", "A"] → lookupStr s'.objs j = lookupStr lobbyState.objs j) :=
  broadcastToRoom_delivers_to_other_members lobbyState "A" "lobby" "ping" (GoVal.num 1)
    ["B", "A"] rfl (by decide)
    (by
      intro i hi hine
      have hi2 : i ∈ ["B", "A"] := hi
      rcases List.mem_cons.mp hi2 with h1 | h1
      · subst h1
        exact ⟨{ sendQueue := [], sendClosed := false, rooms := ["lobby"] }, rfl, rfl, by decide⟩
      · rcases List.mem_cons.mp h1 with h2 | h2
        · exact absurd h2 hine
        · exact absurd h2 (List.not_mem_nil i))
